import Mathlib

/-!
Shallow embedding of the limit-order-book subsystem of this repository.

Embedded sources:
* `src/orderbook_map.cpp` — the `Orderbook` draft built on two
  `std::multimap<double, Order>` books (`bids`, `asks`) and an
  `unordered_map<int, iterator>` cache (namespace `OBMap` below);
* `src/matching_engine/matching_engine.cpp` (the live, uncommented part) —
  the global `orderMap` with `insertOrder` / `deleteOrder` / `lookupOrder`
  (namespace `ME` below);
* `src/tasks/matching_engine/orderbook/orderbook.h`,
  `src/matching_engine/orderbook/orderbooks.cpp`,
  `src/matching_engine/orderbook/pricelevels.cpp`,
  `src/tasks/matching_engine/orderbook/pricelevel.cpp` — the registry
  (`OrderBooks`) and the price-level lookup helpers (namespace `Reg` below);
* the submission path of spec §4.2 (no file under `src/` implements it; it
  is modelled from the spec in namespace `SpecModel` below).

Modelling conventions: C++ `double` prices are modelled as `Int` (the code
only ever compares prices and the scenarios use representable values);
C++ `int` quantities are modelled as `Int`; C++ exceptions are modelled by
`Except.error` carrying the exception message — in every embedded function
the `throw` happens before any mutation of the object, so `.error` also
means "state unchanged".  `while` loops are modelled by fuel-indexed
structural recursion; the fuel chosen at each call site is sufficient
because every loop iteration removes at least one element from the book
(the same argument shows the source loops terminate).
-/

/-- `enum class Side { Buy, Sell }` (src/orderbook_map.cpp line 7; the
`BUY`/`SELL` enums of the other drafts are identified with it). -/
inductive Side : Type
  | buy
  | sell
deriving DecidableEq, Repr

namespace OBMap

/-- `struct Order` of src/orderbook_map.cpp lines 8-14. -/
structure Order : Type where
  orderID : Int
  symbol : String
  quantity : Int
  price : Int
  side : Side
deriving DecidableEq, Repr

/-- One insertion into a `std::multimap<double, Order>`, modelled as its
in-order element list.  `priceLevel.insert({order.price, order})` always
keys an element by its own `price` field, so the key is left implicit.
A multimap inserts an element with an equivalent key at the upper bound of
the equal range: before the first element with a strictly greater key,
after every element with a smaller-or-equal key. -/
def mmInsert (o : Order) : List Order → List Order
  | [] => [o]
  | x :: xs => if o.price < x.price then o :: x :: xs else x :: mmInsert o xs

/-- The data members of `class Orderbook` (src/orderbook_map.cpp lines
16-23): the `bids` and `asks` multimaps and the id → iterator `cache`.
The cache is modelled by its key list; where a cached iterator is read it
is recovered as the first element of the side list carrying that id (ids
of resting orders are unique while the cache is consistently maintained). -/
structure Orderbook : Type where
  bids : List Order
  asks : List Order
  cache : List Int
deriving DecidableEq, Repr

/-- A default-constructed `Orderbook`. -/
def Orderbook.empty : Orderbook := { bids := [], asks := [], cache := [] }

/-- `Orderbook::insert` (src/orderbook_map.cpp lines 26-35).  A duplicate
id throws `std::runtime_error("Order is already present.")`; the throw
precedes every mutation. -/
def Orderbook.insert (ob : Orderbook) (o : Order) : Except String Orderbook :=
  if o.orderID ∈ ob.cache then
    Except.error "Order is already present."
  else if o.side = Side.buy then
    Except.ok { ob with bids := mmInsert o ob.bids, cache := ob.cache ++ [o.orderID] }
  else
    Except.ok { ob with asks := mmInsert o ob.asks, cache := ob.cache ++ [o.orderID] }

/-- Erasing the multimap element a cached iterator points to, recovered as
the first element with the given id. -/
def eraseFirstById (i : Int) : List Order → List Order
  | [] => []
  | x :: xs => if x.orderID = i then xs else x :: eraseFirstById i xs

/-- `Orderbook::cancel` (src/orderbook_map.cpp lines 37-46).  An unknown id
throws `std::runtime_error("Order not present in the order book.")`;
otherwise the element the cached iterator points to is erased from the
side selected by the incoming order's `side`, and the cache entry is
erased. -/
def Orderbook.cancel (ob : Orderbook) (o : Order) : Except String Orderbook :=
  if o.orderID ∈ ob.cache then
    if o.side = Side.buy then
      Except.ok { ob with bids := eraseFirstById o.orderID ob.bids,
                          cache := ob.cache.erase o.orderID }
    else
      Except.ok { ob with asks := eraseFirstById o.orderID ob.asks,
                          cache := ob.cache.erase o.orderID }
  else
    Except.error "Order not present in the order book."

/-- First element with the given id (the order a valid cached iterator
dereferences to). -/
def findById (i : Int) : List Order → Option Order
  | [] => none
  | x :: xs => if x.orderID = i then some x else findById i xs

/-- In-place assignment `existingOrder.quantity = order.quantity` through a
cached iterator: the first element with the id gets the new quantity, all
positions are preserved. -/
def updateQtyById (i : Int) (q : Int) : List Order → List Order
  | [] => []
  | x :: xs =>
    if x.orderID = i then { x with quantity := q } :: xs
    else x :: updateQtyById i q xs

/-- `Orderbook::modify` (src/orderbook_map.cpp lines 48-70).  Unknown id:
throws.  Mismatched id/symbol/side: throws.  Price changed: `cancel`
followed by `insert` (the order moves to the back of its new price level).
Only the quantity changed: the resting order is updated in place through
the cached iterator and keeps its position.  Otherwise: no change.
A cache entry whose multimap element was erased by matching would be a
dangling iterator in the source (undefined behaviour); that case is mapped
to an error. -/
def Orderbook.modify (ob : Orderbook) (o : Order) : Except String Orderbook :=
  if o.orderID ∈ ob.cache then
    match findById o.orderID (ob.bids ++ ob.asks) with
    | none => Except.error "dangling cache iterator (undefined behaviour in the source)"
    | some existing =>
      if existing.orderID ≠ o.orderID ∨ existing.symbol ≠ o.symbol ∨ existing.side ≠ o.side then
        Except.error "Invalid Order: Incoming Order does not match the existing order."
      else if existing.price ≠ o.price then
        match ob.cancel o with
        | Except.error e => Except.error e
        | Except.ok ob1 => ob1.insert o
      else if existing.quantity ≠ o.quantity then
        if o.side = Side.buy then
          Except.ok { ob with bids := updateQtyById o.orderID o.quantity ob.bids }
        else
          Except.ok { ob with asks := updateQtyById o.orderID o.quantity ob.asks }
      else
        Except.ok ob
  else
    Except.error "Order not present in the order book."

/-- Assign a new quantity to the last element of a list (the element
`bids.rbegin()` dereferences to), preserving every position and price. -/
def setLastQty (q : Int) : List Order → List Order
  | [] => []
  | [x] => [{ x with quantity := q }]
  | x :: y :: xs => x :: setLastQty q (y :: xs)

/-- One iteration of the `Orderbook::match()` loop body (src/orderbook_map.cpp
lines 83-92) after the best bid (`bids.rbegin()`, the last multimap element)
and best ask (`asks.begin()`, the first element) have been read: both
quantities drop by `min`, and a side whose best order reaches quantity 0
loses that element. -/
def matchStep (bids : List Order) (bb aa : Order) (arest : List Order) :
    List Order × List Order :=
  let m := min bb.quantity aa.quantity
  ((if bb.quantity - m = 0 then bids.dropLast else setLastQty (bb.quantity - m) bids),
   (if aa.quantity - m = 0 then arest else { aa with quantity := aa.quantity - m } :: arest))

/-- The `while` loop of `Orderbook::match()` (src/orderbook_map.cpp lines
72-94), fuel-indexed.  The loop exits when a side is empty or when the best
bid price is strictly below the best ask price; otherwise it runs
`matchStep`.  Every iteration removes at least one element (the order with
the smaller quantity reaches 0), so `bids.length + asks.length` fuel always
runs the loop to completion. -/
def matchLoopF : Nat → List Order → List Order → List Order × List Order
  | 0, bids, asks => (bids, asks)
  | fuel + 1, bids, asks =>
    match bids.getLast?, asks with
    | none, _ => (bids, asks)
    | some _, [] => (bids, asks)
    | some bb, aa :: arest =>
      if bb.price < aa.price then (bids, asks)
      else
        let r := matchStep bids bb aa arest
        matchLoopF fuel r.1 r.2

/-- `Orderbook::match()` (src/orderbook_map.cpp lines 72-94).  Note that
the cache is not touched by the source function. -/
def Orderbook.runMatch (ob : Orderbook) : Orderbook :=
  let r := matchLoopF (ob.bids.length + ob.asks.length) ob.bids ob.asks
  { ob with bids := r.1, asks := r.2 }

/-- The BUY branch of `Orderbook::match(Order&)` (src/orderbook_map.cpp
lines 97-108), fuel-indexed, with the matched (restingId, matchedQuantity)
pairs of each iteration recorded.  Returns (remaining aggressor quantity,
remaining asks, matches).  An iteration either erases the best ask or
zeroes the aggressor quantity (ending the loop), so `asks.length + 1` fuel
always runs the loop to completion. -/
def matchBuyLoopF : Nat → Int → Int → List Order → Int × List Order × List (Int × Int)
  | 0, q, _, asks => (q, asks, [])
  | fuel + 1, q, p, asks =>
    if q = 0 then (q, asks, [])
    else
      match asks with
      | [] => (q, asks, [])
      | aa :: arest =>
        if p < aa.price then (q, asks, [])
        else
          let m := min q aa.quantity
          let asks' := if aa.quantity - m = 0 then arest
                       else { aa with quantity := aa.quantity - m } :: arest
          let r := matchBuyLoopF fuel (q - m) p asks'
          (r.1, r.2.1, (aa.orderID, m) :: r.2.2)

/-- The SELL branch of `Orderbook::match(Order&)` (src/orderbook_map.cpp
lines 109-121): the aggressor consumes `bids.rbegin()`, the LAST multimap
element at the highest bid price. -/
def matchSellLoopF : Nat → Int → Int → List Order → Int × List Order × List (Int × Int)
  | 0, q, _, bids => (q, bids, [])
  | fuel + 1, q, p, bids =>
    if q = 0 then (q, bids, [])
    else
      match bids.getLast? with
      | none => (q, bids, [])
      | some bb =>
        if bb.price < p then (q, bids, [])
        else
          let m := min q bb.quantity
          let bids' := if bb.quantity - m = 0 then bids.dropLast
                       else setLastQty (bb.quantity - m) bids
          let r := matchSellLoopF fuel (q - m) p bids'
          (r.1, r.2.1, (bb.orderID, m) :: r.2.2)

/-- `Orderbook::match(Order&)` (src/orderbook_map.cpp lines 96-122).
Returns the mutated aggressor, the mutated book, and the recorded matches.
The cache is not touched by the source function. -/
def Orderbook.matchOrder (ob : Orderbook) (o : Order) :
    Order × Orderbook × List (Int × Int) :=
  if o.side = Side.buy then
    let r := matchBuyLoopF (ob.asks.length + 1) o.quantity o.price ob.asks
    ({ o with quantity := r.1 }, { ob with asks := r.2.1 }, r.2.2)
  else
    let r := matchSellLoopF (ob.bids.length + 1) o.quantity o.price ob.bids
    ({ o with quantity := r.1 }, { ob with bids := r.2.1 }, r.2.2)

/-- Total resting quantity of a list of orders. -/
def sumQty (l : List Order) : Int := (l.map Order.quantity).sum

/-- Total matched quantity of a list of (restingId, matchedQuantity) pairs. -/
def tradesTotal (tr : List (Int × Int)) : Int := (tr.map Prod.snd).sum

/-- A sequence of `Orderbook::insert` calls, stopping at the first thrown
exception. -/
def insertSeq (ob : Orderbook) : List Order → Except String Orderbook
  | [] => Except.ok ob
  | o :: os =>
    match ob.insert o with
    | Except.error e => Except.error e
    | Except.ok ob1 => insertSeq ob1 os

/-- The no-cross property of claim C1, in the spec's own second phrasing:
no resting bid price is ≥ any resting ask price (which is equivalent to
`bestBid < bestAsk` whenever both sides are non-empty). -/
def noCrossProp (ob : Orderbook) : Prop :=
  ∀ b ∈ ob.bids, ∀ a ∈ ob.asks, b.price < a.price

instance (ob : Orderbook) : Decidable (noCrossProp ob) := by
  unfold noCrossProp; infer_instance

/-- Price-sortedness (ascending) of a multimap's element list — the
representation invariant of `std::multimap<double, Order>`. -/
def PSorted (l : List Order) : Prop :=
  List.Pairwise (fun a b => a.price ≤ b.price) l

instance (l : List Order) : Decidable (PSorted l) := by
  unfold PSorted; infer_instance

end OBMap

namespace ME

/-- `insertOrder` (src/matching_engine/matching_engine.cpp lines 92-97):
`orderMap[order->id] = metaData` adds the key when absent.  The global
`orderMap` is modelled by its key list; the stored `OrderMetaData` value
(`{orderBook, priceLevel, nullptr, nullptr}`) is never read by the
modelled operations. -/
def insertOrder (mp : List Int) (orderId : Int) : List Int :=
  if orderId ∈ mp then mp else mp ++ [orderId]

/-- `deleteOrder` (src/matching_engine/matching_engine.cpp lines 99-106):
look the id up; erase it when found, otherwise do nothing. -/
def deleteOrder (mp : List Int) (orderId : Int) : List Int :=
  if orderId ∈ mp then mp.erase orderId else mp

/-- `lookupOrder` (src/matching_engine/matching_engine.cpp lines 108-115),
reduced to whether a metadata entry is found. -/
def lookupOrder (mp : List Int) (orderId : Int) : Bool :=
  mp.contains orderId

end ME

namespace Reg

/-- `enum class OrderType { GFD, IOC }`
(src/tasks/matching_engine/orderbook/orderbook.h lines 35-38). -/
inductive OrderType : Type
  | GFD
  | IOC
deriving DecidableEq, Repr

/-- `struct Order` of src/tasks/matching_engine/orderbook/orderbook.h lines
45-69 (`OrderID`/`Symbol` are strings, `Price` a double, `Quantity` an
`int`). -/
structure TOrder : Type where
  id : String
  price : Int
  qty : Int
  type : OrderType
  side : Side
  sym : String
deriving DecidableEq, Repr

/-- `struct PriceLevel` of src/tasks/matching_engine/orderbook/orderbook.h
lines 71-96: a price and the FIFO `deque<Order>` of orders at that price. -/
structure TPriceLevel : Type where
  price : Int
  orders : List TOrder
deriving DecidableEq, Repr

namespace PriceLevels

/-- `PriceLevels::find` (src/matching_engine/orderbook/pricelevels.cpp lines
19-29).  `find_if(rbegin, rend, price ==)` locates the LAST level (in
forward order) with the given price; on a miss the function returns
`(false, end())`, on a hit it returns `(true, iter.base())` — and for a
reverse iterator `iter`, `iter.base()` is the forward iterator ONE PAST the
element `iter` dereferences to.  Vector iterators are modelled as indices
into the element list, `end()` as the length: a reverse index `r` (0 = last
element) dereferences to forward index `length - 1 - r`, so its `base()` is
index `length - r`. -/
def find (levels : List TPriceLevel) (p : Int) : Bool × Nat :=
  match levels.reverse.findIdx? (fun lv => lv.price == p) with
  | none => (false, levels.length)
  | some r => (true, levels.length - r)

end PriceLevels

namespace PriceLevel

/-- `PriceLevel::findOrder` (src/tasks/matching_engine/orderbook/pricelevel.cpp
lines 64-76): the same reverse scan over the level's `deque<Order>`, keyed
by the order id, again returning `iter.base()` on a hit. -/
def findOrder (orders : List TOrder) (o : TOrder) : Bool × Nat :=
  match orders.reverse.findIdx? (fun x => x.id == o.id) with
  | none => (false, orders.length)
  | some r => (true, orders.length - r)

end PriceLevel

/-- `struct OrderBook` of src/tasks/matching_engine/orderbook/orderbook.h
lines 107-121: symbol, bid/ask `PriceLevels`, and the id → price-level map
(modelled by its key list; the mapped `shared_ptr` values are not read by
the registry operations embedded here). -/
structure TOrderBook : Type where
  symbol : String
  bidLevels : List TPriceLevel
  askLevels : List TPriceLevel
  priceLevelKeys : List String
deriving DecidableEq, Repr

/-- The `OrderBook(Symbol)` constructor: containers start empty. -/
def mkOrderBook (sym : String) : TOrderBook :=
  { symbol := sym, bidLevels := [], askLevels := [], priceLevelKeys := [] }

namespace OrderBooks

/-- `orderBookBySymbolMap.find(sym)`: the `unordered_map<Symbol, OrderBook>`
is modelled as an association list with unique keys (insertion order). -/
def findBySym (m : List (String × TOrderBook)) (sym : String) : Option TOrderBook :=
  match m with
  | [] => none
  | (k, b) :: rest => if k = sym then some b else findBySym rest sym

/-- `OrderBooks::get` (src/matching_engine/orderbook/orderbooks.cpp lines
14-22): a const lookup returning `nullopt` when the symbol is absent.  The
receiver is taken and returned by value nowhere — the model's type records
that `get` cannot mutate the registry. -/
def get (m : List (String × TOrderBook)) (sym : String) : Option TOrderBook :=
  findBySym m sym

/-- `OrderBooks::getOrAdd(OrderBook&&)` (src/matching_engine/orderbook/
orderbooks.cpp lines 30-34): `try_emplace(orderBook.symbol, move(orderBook))`
returns the mapped book, inserting the argument first when the key was
absent.  Returns (updated registry, returned book). -/
def getOrAddBook (m : List (String × TOrderBook)) (b : TOrderBook) :
    List (String × TOrderBook) × TOrderBook :=
  match findBySym m b.symbol with
  | some existing => (m, existing)
  | none => (m ++ [(b.symbol, b)], b)

/-- `OrderBooks::getOrAdd(const Symbol&)` (src/matching_engine/orderbook/
orderbooks.cpp lines 24-28): `getOrAdd(OrderBook(symbol))`. -/
def getOrAdd (m : List (String × TOrderBook)) (sym : String) :
    List (String × TOrderBook) × TOrderBook :=
  getOrAddBook m (mkOrderBook sym)

end OrderBooks

/-- Every registry entry stores a book whose `symbol` field equals its key
— the invariant `try_emplace(orderBook.symbol, …)` maintains. -/
def SymKeyed (m : List (String × TOrderBook)) : Prop :=
  ∀ p ∈ m, p.2.symbol = p.1

instance (m : List (String × TOrderBook)) : Decidable (SymKeyed m) := by
  unfold SymKeyed; infer_instance

end Reg

namespace SpecModel

/-- Modelled from the spec: the time-in-force of spec §3 (`GFD` rests,
`IOC` never rests).  The enum exists under src/
(`src/matching_engine/orderbook/orderbook.h` lines 23-26) but no file under
src/ implements the submission path that consumes it. -/
inductive OrderType : Type
  | GFD
  | IOC
deriving DecidableEq, Repr

/-- Modelled from the spec: the OrderRecord fields the §4.2 submission path
reads (identifier, side, price, positive integer quantity, time-in-force). -/
structure SOrder : Type where
  id : String
  side : Side
  price : Int
  qty : Nat
  type : OrderType
deriving DecidableEq, Repr

/-- Modelled from the spec: a §6 `Trade{aggressorId, restingId, price, qty}`
event. -/
structure Trade : Type where
  aggressor : String
  resting : String
  price : Int
  qty : Nat
deriving DecidableEq, Repr

/-- Modelled from the spec: the book state the §4.2 algorithm manipulates.
Each side is kept best-price-first (bids highest-first, asks lowest-first)
with FIFO order among equal prices, so the head of the opposite side is the
oldest order of the best opposite price level; `index` is the OrderIndex
key set. -/
structure SpecBook : Type where
  bids : List SOrder
  asks : List SOrder
  index : List String
deriving DecidableEq, Repr

/-- Modelled from the spec: the §4.2 step-2 crossing condition
(`order.side==BUY`: `order.price >= opposite.bestPrice`; `order.side==SELL`:
`order.price <= opposite.bestPrice`). -/
def crosses (side : Side) (p best : Int) : Bool :=
  match side with
  | Side.buy => best ≤ p
  | Side.sell => p ≤ best

/-- Modelled from the spec: the §4.2 matching loop, missing from src/.
While the incoming order has remaining quantity and the best opposite price
crosses, the head (oldest, best-priced) resting order is consumed:
`matchedQty = min(remaining, resting.remaining)`, a Trade at the RESTING
price is emitted, both quantities drop, and a fully filled resting order is
removed from the side and from the OrderIndex.  Fuel-indexed; an iteration
either removes the head resting order or zeroes the incoming quantity, so
`opposite.length + 1` fuel always runs the loop to completion.  Returns
(remaining quantity, opposite side, index, trades). -/
def matchLoopS (side : Side) (aggrId : String) (p : Int) :
    Nat → Nat → List SOrder → List String →
    Nat × List SOrder × List String × List Trade
  | 0, q, opp, idx => (q, opp, idx, [])
  | _ + 1, q, [], idx => (q, [], idx, [])
  | fuel + 1, q, r :: rest, idx =>
    if q = 0 then (q, r :: rest, idx, [])
    else if crosses side p r.price then
      let m := min q r.qty
      let t : Trade := { aggressor := aggrId, resting := r.id, price := r.price, qty := m }
      if r.qty - m = 0 then
        let res := matchLoopS side aggrId p fuel (q - m) rest (idx.erase r.id)
        (res.1, res.2.1, res.2.2.1, t :: res.2.2.2)
      else
        let res := matchLoopS side aggrId p fuel (q - m)
          ({ r with qty := r.qty - m } :: rest) idx
        (res.1, res.2.1, res.2.2.1, t :: res.2.2.2)
    else (q, r :: rest, idx, [])

/-- Modelled from the spec: §4.2 step 3 resting insertion — the GFD
remainder joins the tail of its price level; each side stays best-first
with FIFO among equal prices, so the order is inserted before the first
strictly-worse-priced element. -/
def restInsert (side : Side) (o : SOrder) : List SOrder → List SOrder
  | [] => [o]
  | x :: xs =>
    match side with
    | Side.buy =>
      if x.price < o.price then o :: x :: xs else x :: restInsert side o xs
    | Side.sell =>
      if o.price < x.price then o :: x :: xs else x :: restInsert side o xs

/-- Modelled from the spec: `submit(order) -> sequence of Trade, plus 0/1
resting-ack` (§4.2), missing from src/.  After matching, an IOC remainder
is discarded — no resting ack, no OrderIndex entry; a GFD remainder rests
and is acknowledged; a fully filled incoming order rests nowhere.  Returns
(book, trades, optional resting-ack id). -/
def submit (b : SpecBook) (o : SOrder) : SpecBook × List Trade × Option String :=
  match o.side with
  | Side.buy =>
    let res := matchLoopS Side.buy o.id o.price (b.asks.length + 1) o.qty b.asks b.index
    if 0 < res.1 then
      if o.type = OrderType.IOC then
        ({ bids := b.bids, asks := res.2.1, index := res.2.2.1 }, res.2.2.2, none)
      else
        ({ bids := restInsert Side.buy { o with qty := res.1 } b.bids,
           asks := res.2.1, index := res.2.2.1 ++ [o.id] }, res.2.2.2, some o.id)
    else
      ({ bids := b.bids, asks := res.2.1, index := res.2.2.1 }, res.2.2.2, none)
  | Side.sell =>
    let res := matchLoopS Side.sell o.id o.price (b.bids.length + 1) o.qty b.bids b.index
    if 0 < res.1 then
      if o.type = OrderType.IOC then
        ({ bids := res.2.1, asks := b.asks, index := res.2.2.1 }, res.2.2.2, none)
      else
        ({ bids := res.2.1, asks := restInsert Side.sell { o with qty := res.1 } b.asks,
           index := res.2.2.1 ++ [o.id] }, res.2.2.2, some o.id)
    else
      ({ bids := res.2.1, asks := b.asks, index := res.2.2.1 }, res.2.2.2, none)

end SpecModel

/-! ### Helper lemmas for the `orderbook_map.cpp` matching loop -/

namespace OBMap

theorem setLastQty_length (q : Int) : ∀ (l : List Order), (setLastQty q l).length = l.length
  | [] => rfl
  | [_] => rfl
  | _ :: y :: xs => by
    simp only [setLastQty, List.length_cons]
    exact congrArg (· + 1) (setLastQty_length q (y :: xs))

theorem setLastQty_map_price (q : Int) :
    ∀ (l : List Order), (setLastQty q l).map Order.price = l.map Order.price
  | [] => rfl
  | [_] => rfl
  | _ :: y :: xs => by
    simp only [setLastQty, List.map_cons]
    exact congrArg _ (setLastQty_map_price q (y :: xs))

theorem psorted_iff_map (l : List Order) :
    PSorted l ↔ (l.map Order.price).Pairwise (· ≤ ·) := by
  unfold PSorted
  exact (List.pairwise_map).symm

theorem psorted_setLastQty {l : List Order} (q : Int) (h : PSorted l) :
    PSorted (setLastQty q l) := by
  rw [psorted_iff_map, setLastQty_map_price, ← psorted_iff_map]
  exact h

theorem psorted_dropLast {l : List Order} (h : PSorted l) : PSorted l.dropLast :=
  h.sublist (List.dropLast_sublist l)

theorem le_getLast_price :
    ∀ {l : List Order} {x b : Order}, PSorted l → l.getLast? = some x → b ∈ l →
      b.price ≤ x.price
  | [], _, _, _, hgl, _ => by simp at hgl
  | [a], x, b, _, hgl, hb => by
    simp only [List.getLast?_singleton, Option.some.injEq] at hgl
    simp only [List.mem_singleton] at hb
    subst hgl; subst hb; exact le_refl _
  | a :: c :: u, x, b, hs, hgl, hb => by
    have hgl' : (c :: u).getLast? = some x := hgl
    have hs' : PSorted (c :: u) := (List.pairwise_cons.mp hs).2
    have hx : x ∈ c :: u := List.mem_of_mem_getLast? hgl'
    rcases List.mem_cons.mp hb with hba | hbt
    · subst hba
      exact (List.pairwise_cons.mp hs).1 x hx
    · exact le_getLast_price hs' hgl' hbt

theorem head_le_price {a b : Order} {l : List Order} (hs : PSorted (a :: l))
    (hb : b ∈ a :: l) : a.price ≤ b.price := by
  rcases List.mem_cons.mp hb with hba | hbt
  · subst hba; exact le_refl _
  · exact (List.pairwise_cons.mp hs).1 b hbt

theorem matchStep_length {bids : List Order} (bb aa : Order) (arest : List Order)
    (hne : bids ≠ []) :
    (matchStep bids bb aa arest).1.length + (matchStep bids bb aa arest).2.length + 1
      ≤ bids.length + (aa :: arest).length := by
  have hpos : 0 < bids.length := List.length_pos.mpr hne
  have hd : bids.dropLast.length = bids.length - 1 := List.length_dropLast bids
  rcases min_choice bb.quantity aa.quantity with hm | hm <;>
    simp only [matchStep] <;>
    split_ifs with h1 h2 <;>
    simp only [List.length_cons, hd, setLastQty_length] <;>
    omega

theorem matchStep_psorted {bids : List Order} (bb aa : Order) (arest : List Order)
    (hsb : PSorted bids) (hsa : PSorted (aa :: arest)) :
    PSorted (matchStep bids bb aa arest).1 ∧ PSorted (matchStep bids bb aa arest).2 := by
  unfold matchStep
  constructor
  · by_cases hbz : bb.quantity - min bb.quantity aa.quantity = 0
    · simp only [hbz, if_pos rfl]
      exact psorted_dropLast hsb
    · simp only [if_neg hbz]
      exact psorted_setLastQty _ hsb
  · by_cases haz : aa.quantity - min bb.quantity aa.quantity = 0
    · simp only [haz, if_pos rfl]
      exact (List.pairwise_cons.mp hsa).2
    · simp only [if_neg haz]
      unfold PSorted at hsa ⊢
      rw [List.pairwise_cons] at hsa ⊢
      exact ⟨fun y hy => hsa.1 y hy, hsa.2⟩

theorem matchLoopF_nocross :
    ∀ (fuel : Nat) (bids asks : List Order), PSorted bids → PSorted asks →
      bids.length + asks.length ≤ fuel →
      ∀ b ∈ (matchLoopF fuel bids asks).1, ∀ a ∈ (matchLoopF fuel bids asks).2,
        b.price < a.price := by
  intro fuel
  induction fuel with
  | zero =>
    intro bids asks _ _ hlen b hb a ha
    have hbids : bids = [] := List.length_eq_zero.mp (by omega)
    subst hbids
    simp only [matchLoopF] at hb
    exact absurd hb (List.not_mem_nil b)
  | succ fuel ih =>
    intro bids asks hsb hsa hlen b hb a ha
    cases hgl : bids.getLast? with
    | none =>
      have hbids : bids = [] := List.getLast?_eq_none_iff.mp hgl
      subst hbids
      simp only [matchLoopF, List.getLast?_nil] at hb
      exact absurd hb (List.not_mem_nil b)
    | some bb =>
      cases asks with
      | nil =>
        simp only [matchLoopF, hgl] at ha
        exact absurd ha (List.not_mem_nil a)
      | cons aa arest =>
        by_cases hp : bb.price < aa.price
        · simp only [matchLoopF, hgl, if_pos hp] at hb ha
          calc b.price ≤ bb.price := le_getLast_price hsb hgl hb
            _ < aa.price := hp
            _ ≤ a.price := head_le_price hsa ha
        · simp only [matchLoopF, hgl, if_neg hp] at hb ha
          have hne : bids ≠ [] := by
            intro h; subst h; simp at hgl
          obtain ⟨h1, h2⟩ := matchStep_psorted bb aa arest hsb hsa
          have hl := matchStep_length bb aa arest hne
          have hlen' : (matchStep bids bb aa arest).1.length
              + (matchStep bids bb aa arest).2.length ≤ fuel := by
            simp only [List.length_cons] at hlen hl
            omega
          exact ih _ _ h1 h2 hlen' b hb a ha

/-! ### Claim C1 -/

/-- Claim C1, amended: the matching step does establish the no-cross
invariant — running `Orderbook::match()` on any price-sorted book leaves a
book in which no resting bid price is ≥ any resting ask price (equivalently
`bestBid < bestAsk` whenever both sides are non-empty).  The claim as
stated (the invariant holds in EVERY reachable state) fails because
`insert`/`cancel`/`modify` do not invoke matching, so states between an
insert and the next explicit `match()` call may be crossed
(see the counterexample). -/
theorem C1_nocross_after_match (ob : Orderbook) (hb : PSorted ob.bids)
    (ha : PSorted ob.asks) : noCrossProp ob.runMatch := by
  intro b hbm a ham
  simp only [Orderbook.runMatch] at hbm ham
  exact matchLoopF_nocross _ _ _ hb ha (le_refl _) b hbm a ham

/-- Claim C1, counterexample: inserting a buy at price 10 and then a sell
at price 9 — two processed events — succeeds and yields a reachable state
whose best bid (10) is NOT strictly below its best ask (9): the no-cross
invariant does not hold after every processed event, only after `match()`
runs. -/
theorem C1_counterexample :
    insertSeq Orderbook.empty
        [⟨1, "SYM", 5, 10, Side.buy⟩, ⟨2, "SYM", 5, 9, Side.sell⟩]
      = Except.ok ⟨[⟨1, "SYM", 5, 10, Side.buy⟩], [⟨2, "SYM", 5, 9, Side.sell⟩], [1, 2]⟩
    ∧ ¬ noCrossProp ⟨[⟨1, "SYM", 5, 10, Side.buy⟩], [⟨2, "SYM", 5, 9, Side.sell⟩], [1, 2]⟩ := by
  constructor
  · rfl
  · decide

/-- Claim C1, witness: the amended theorem applied to a concrete sorted
book (bid at 9, ask at 10) on which `match()` leaves both sides non-empty
and uncrossed. -/
theorem C1_witness :
    noCrossProp (Orderbook.runMatch
      ⟨[⟨1, "SYM", 5, 9, Side.buy⟩], [⟨2, "SYM", 5, 10, Side.sell⟩], [1, 2]⟩) :=
  C1_nocross_after_match
    ⟨[⟨1, "SYM", 5, 9, Side.buy⟩], [⟨2, "SYM", 5, 10, Side.sell⟩], [1, 2]⟩
    (by decide) (by decide)

/-! ### Claim C2 -/

/-- Claim C2 is violated by the code: with two resting buy orders at the
same price 10 — id 1 arrived first, id 2 second — a crossing sell for the
full size of either consumes id 2 (the NEWEST order: `Orderbook::match(Order&)`
reads `bids.rbegin()`, the last element of the equal-price run) and leaves
id 1 resting untouched, while the claim requires the oldest (id 1) to be
matched first.  (`OrderBook::matchOrders` of src/lru_orderbook.cpp matches
`vector::back()`, newest-first, on both sides likewise.) -/
theorem C2_time_priority_violated :
    insertSeq Orderbook.empty
        [⟨1, "SYM", 5, 10, Side.buy⟩, ⟨2, "SYM", 7, 10, Side.buy⟩]
      = Except.ok ⟨[⟨1, "SYM", 5, 10, Side.buy⟩, ⟨2, "SYM", 7, 10, Side.buy⟩], [], [1, 2]⟩
    ∧ (Orderbook.matchOrder
        ⟨[⟨1, "SYM", 5, 10, Side.buy⟩, ⟨2, "SYM", 7, 10, Side.buy⟩], [], [1, 2]⟩
        ⟨3, "SYM", 7, 10, Side.sell⟩).2.2 = [(2, 7)]
    ∧ (Orderbook.matchOrder
        ⟨[⟨1, "SYM", 5, 10, Side.buy⟩, ⟨2, "SYM", 7, 10, Side.buy⟩], [], [1, 2]⟩
        ⟨3, "SYM", 7, 10, Side.sell⟩).2.1.bids.map Order.orderID = [1] := by
  refine ⟨rfl, rfl, rfl⟩

/-! ### Claim C7 -/

/-- Claim C7 is violated by the code: two orders that fully fill each other
are erased from the bid and ask multimaps by `Orderbook::match()`, but
their `cache` (OrderIndex) entries are NOT removed — after the match both
sides are empty while the cache still holds ids 1 and 2 (now dangling
iterators in the source), contradicting "every index entry refers to a
currently resting order" and "entry removed exactly when fully filled or
cancelled". -/
theorem C7_stale_index_after_match :
    Except.map (fun ob : Orderbook => ob.runMatch)
        (insertSeq Orderbook.empty
          [⟨1, "SYM", 5, 10, Side.buy⟩, ⟨2, "SYM", 5, 10, Side.sell⟩])
      = Except.ok ⟨[], [], [1, 2]⟩ := by
  rfl

end OBMap

/-! ### Helper lemmas for quantity conservation (`Orderbook::match(Order&)`) -/

namespace OBMap

theorem sumQty_nil : sumQty [] = 0 := rfl

theorem sumQty_cons (x : Order) (l : List Order) :
    sumQty (x :: l) = x.quantity + sumQty l := by
  simp [sumQty]

theorem tradesTotal_nil : tradesTotal [] = 0 := rfl

theorem tradesTotal_cons (x : Int × Int) (tr : List (Int × Int)) :
    tradesTotal (x :: tr) = x.2 + tradesTotal tr := by
  simp [tradesTotal]

theorem sumQty_dropLast :
    ∀ {l : List Order} {bb : Order}, l.getLast? = some bb →
      sumQty l = sumQty l.dropLast + bb.quantity
  | [], _, hgl => by simp at hgl
  | [x], bb, hgl => by
    simp only [List.getLast?_singleton, Option.some.injEq] at hgl
    subst hgl
    simp [sumQty]
  | x :: y :: xs, bb, hgl => by
    have hgl' : (y :: xs).getLast? = some bb := hgl
    have ih := sumQty_dropLast hgl'
    simp only [List.dropLast_cons₂, sumQty_cons] at ih ⊢
    omega

theorem sumQty_setLastQty :
    ∀ {l : List Order} {bb : Order} (q : Int), l.getLast? = some bb →
      sumQty (setLastQty q l) = sumQty l - bb.quantity + q
  | [], _, q, hgl => by simp at hgl
  | [x], bb, q, hgl => by
    simp only [List.getLast?_singleton, Option.some.injEq] at hgl
    subst hgl
    simp [setLastQty, sumQty]
  | x :: y :: xs, bb, q, hgl => by
    have hgl' : (y :: xs).getLast? = some bb := hgl
    have ih := sumQty_setLastQty q hgl'
    simp only [setLastQty, sumQty_cons] at ih ⊢
    omega

theorem matchBuyLoopF_conserve :
    ∀ (fuel : Nat) (q p : Int) (asks : List Order),
      (matchBuyLoopF fuel q p asks).1
          = q - tradesTotal (matchBuyLoopF fuel q p asks).2.2
      ∧ sumQty (matchBuyLoopF fuel q p asks).2.1
          = sumQty asks - tradesTotal (matchBuyLoopF fuel q p asks).2.2
      ∧ (0 ≤ q → 0 ≤ (matchBuyLoopF fuel q p asks).1) := by
  intro fuel
  induction fuel with
  | zero =>
    intro q p asks
    simp [matchBuyLoopF, tradesTotal]
  | succ fuel ih =>
    intro q p asks
    by_cases hq : q = 0
    · simp [matchBuyLoopF, hq, tradesTotal]
    · cases asks with
      | nil => simp [matchBuyLoopF, hq, tradesTotal]
      | cons aa arest =>
        by_cases hp : p < aa.price
        · simp [matchBuyLoopF, hq, hp, tradesTotal]
        · obtain ⟨h1, h2, h3⟩ := ih (q - min q aa.quantity) p
            (if aa.quantity - min q aa.quantity = 0 then arest
             else { aa with quantity := aa.quantity - min q aa.quantity } :: arest)
          simp only [matchBuyLoopF, if_neg hq, if_neg hp]
          have hmle : min q aa.quantity ≤ q := min_le_left _ _
          refine ⟨?_, ?_, ?_⟩
          · rw [tradesTotal_cons]
            omega
          · rw [tradesTotal_cons]
            by_cases haz : aa.quantity - min q aa.quantity = 0
            · simp only [if_pos haz] at h2 ⊢
              rw [sumQty_cons]
              have hmin : min q aa.quantity ≤ aa.quantity := min_le_right _ _
              omega
            · simp only [if_neg haz] at h2 ⊢
              rw [sumQty_cons] at h2 ⊢
              simp only [] at h2
              omega
          · intro hq0
            exact h3 (by omega)

theorem matchSellLoopF_conserve :
    ∀ (fuel : Nat) (q p : Int) (bids : List Order),
      (matchSellLoopF fuel q p bids).1
          = q - tradesTotal (matchSellLoopF fuel q p bids).2.2
      ∧ sumQty (matchSellLoopF fuel q p bids).2.1
          = sumQty bids - tradesTotal (matchSellLoopF fuel q p bids).2.2
      ∧ (0 ≤ q → 0 ≤ (matchSellLoopF fuel q p bids).1) := by
  intro fuel
  induction fuel with
  | zero =>
    intro q p bids
    simp [matchSellLoopF, tradesTotal]
  | succ fuel ih =>
    intro q p bids
    by_cases hq : q = 0
    · simp [matchSellLoopF, hq, tradesTotal]
    · cases hgl : bids.getLast? with
      | none => simp [matchSellLoopF, hq, hgl, tradesTotal]
      | some bb =>
        by_cases hp : bb.price < p
        · simp [matchSellLoopF, hq, hgl, hp, tradesTotal]
        · obtain ⟨h1, h2, h3⟩ := ih (q - min q bb.quantity) p
            (if bb.quantity - min q bb.quantity = 0 then bids.dropLast
             else setLastQty (bb.quantity - min q bb.quantity) bids)
          simp only [matchSellLoopF, hgl, if_neg hq, if_neg hp]
          have hmle : min q bb.quantity ≤ q := min_le_left _ _
          refine ⟨?_, ?_, ?_⟩
          · rw [tradesTotal_cons]
            omega
          · rw [tradesTotal_cons]
            by_cases hbz : bb.quantity - min q bb.quantity = 0
            · simp only [if_pos hbz] at h2 ⊢
              have hsum := sumQty_dropLast hgl
              omega
            · simp only [if_neg hbz] at h2 ⊢
              have hsum := sumQty_setLastQty (bb.quantity - min q bb.quantity) hgl
              omega
          · intro hq0
            exact h3 (by omega)

end OBMap

/-! ### Claims C3, C4, C6, C8 -/

namespace OBMap

/-- Claim C3: quantity conservation for one submission through
`Orderbook::match(Order&)`.  For an incoming order of non-negative
quantity: the aggressor's final remaining quantity is its original quantity
minus the total matched quantity (each iteration decrements it by exactly
`matchedQuantity = min(order.quantity, resting.quantity)`); the total
resting quantity of the book drops by exactly the total matched quantity
(each iteration decrements the consumed resting order by the same
`matchedQuantity`); and the total matched over the whole submission never
exceeds the incoming order's original quantity. -/
theorem C3_quantity_conservation (ob : Orderbook) (o : Order) (h : 0 ≤ o.quantity) :
    (ob.matchOrder o).1.quantity
        = o.quantity - tradesTotal (ob.matchOrder o).2.2
    ∧ tradesTotal (ob.matchOrder o).2.2 ≤ o.quantity
    ∧ sumQty (ob.matchOrder o).2.1.bids + sumQty (ob.matchOrder o).2.1.asks
        = sumQty ob.bids + sumQty ob.asks - tradesTotal (ob.matchOrder o).2.2 := by
  unfold Orderbook.matchOrder
  by_cases hside : o.side = Side.buy
  · simp only [if_pos hside]
    obtain ⟨h1, h2, h3⟩ :=
      matchBuyLoopF_conserve (ob.asks.length + 1) o.quantity o.price ob.asks
    have h4 := h3 h
    exact ⟨h1, by omega, by omega⟩
  · simp only [if_neg hside]
    obtain ⟨h1, h2, h3⟩ :=
      matchSellLoopF_conserve (ob.bids.length + 1) o.quantity o.price ob.bids
    have h4 := h3 h
    exact ⟨h1, by omega, by omega⟩

/-- Claim C3, witness: a concrete buy for 8 against a book with asks of
size 5 and 5 at price 10, fully conserving quantities. -/
theorem C3_witness :
    ((Orderbook.matchOrder
        ⟨[], [⟨2, "SYM", 5, 10, Side.sell⟩, ⟨4, "SYM", 5, 10, Side.sell⟩], [2, 4]⟩
        ⟨1, "SYM", 8, 11, Side.buy⟩).1.quantity
      = (8 : Int) - tradesTotal (Orderbook.matchOrder
        ⟨[], [⟨2, "SYM", 5, 10, Side.sell⟩, ⟨4, "SYM", 5, 10, Side.sell⟩], [2, 4]⟩
        ⟨1, "SYM", 8, 11, Side.buy⟩).2.2)
    ∧ tradesTotal (Orderbook.matchOrder
        ⟨[], [⟨2, "SYM", 5, 10, Side.sell⟩, ⟨4, "SYM", 5, 10, Side.sell⟩], [2, 4]⟩
        ⟨1, "SYM", 8, 11, Side.buy⟩).2.2 ≤ (8 : Int)
    ∧ sumQty (Orderbook.matchOrder
        ⟨[], [⟨2, "SYM", 5, 10, Side.sell⟩, ⟨4, "SYM", 5, 10, Side.sell⟩], [2, 4]⟩
        ⟨1, "SYM", 8, 11, Side.buy⟩).2.1.bids
      + sumQty (Orderbook.matchOrder
        ⟨[], [⟨2, "SYM", 5, 10, Side.sell⟩, ⟨4, "SYM", 5, 10, Side.sell⟩], [2, 4]⟩
        ⟨1, "SYM", 8, 11, Side.buy⟩).2.1.asks
      = sumQty ([] : List Order)
        + sumQty [⟨2, "SYM", 5, 10, Side.sell⟩, ⟨4, "SYM", 5, 10, Side.sell⟩]
        - tradesTotal (Orderbook.matchOrder
        ⟨[], [⟨2, "SYM", 5, 10, Side.sell⟩, ⟨4, "SYM", 5, 10, Side.sell⟩], [2, 4]⟩
        ⟨1, "SYM", 8, 11, Side.buy⟩).2.2 :=
  C3_quantity_conservation
    ⟨[], [⟨2, "SYM", 5, 10, Side.sell⟩, ⟨4, "SYM", 5, 10, Side.sell⟩], [2, 4]⟩
    ⟨1, "SYM", 8, 11, Side.buy⟩ (by decide)

theorem updateQtyById_map_idprice (i q : Int) :
    ∀ (l : List Order),
      (updateQtyById i q l).map (fun x => (x.orderID, x.price))
        = l.map (fun x => (x.orderID, x.price))
  | [] => rfl
  | x :: xs => by
    by_cases hx : x.orderID = i
    · simp [updateQtyById, hx]
    · simp [updateQtyById, hx, updateQtyById_map_idprice i q xs]

/-- Claim C4, amended: only a modify that CHANGES the price is performed as
cancel-plus-reinsert; `Orderbook::modify` performs a modify that leaves the
price unchanged (changing at most the quantity) in place through the cached
iterator, so the order keeps its position — the (id, price) sequence of
both book sides and the id cache are untouched.  The claim as stated (every
modify, including a quantity-only one, reinserts and loses time priority)
fails on the code (see the counterexample). -/
theorem C4_same_price_modify_in_place (ob : Orderbook) (o existing : Order)
    (ob2 : Orderbook)
    (hfind : findById o.orderID (ob.bids ++ ob.asks) = some existing)
    (hp : existing.price = o.price)
    (hok : ob.modify o = Except.ok ob2) :
    ob2.bids.map (fun x => (x.orderID, x.price)) = ob.bids.map (fun x => (x.orderID, x.price))
    ∧ ob2.asks.map (fun x => (x.orderID, x.price)) = ob.asks.map (fun x => (x.orderID, x.price))
    ∧ ob2.cache = ob.cache := by
  by_cases hc : o.orderID ∈ ob.cache
  · simp only [Orderbook.modify, if_pos hc, hfind] at hok
    by_cases hg : existing.orderID ≠ o.orderID ∨ existing.symbol ≠ o.symbol
        ∨ existing.side ≠ o.side
    · rw [if_pos hg] at hok
      exact absurd hok (by simp)
    · rw [if_neg hg] at hok
      have hpne : ¬ existing.price ≠ o.price := by simp [hp]
      rw [if_neg hpne] at hok
      by_cases hqd : existing.quantity ≠ o.quantity
      · rw [if_pos hqd] at hok
        by_cases hs : o.side = Side.buy
        · rw [if_pos hs, Except.ok.injEq] at hok
          subst hok
          exact ⟨updateQtyById_map_idprice o.orderID o.quantity ob.bids, rfl, rfl⟩
        · rw [if_neg hs, Except.ok.injEq] at hok
          subst hok
          exact ⟨rfl, updateQtyById_map_idprice o.orderID o.quantity ob.asks, rfl⟩
      · rw [if_neg hqd, Except.ok.injEq] at hok
        subst hok
        exact ⟨rfl, rfl, rfl⟩
  · simp only [Orderbook.modify, if_neg hc] at hok
    exact absurd hok (by simp)

/-- Claim C4, counterexample: buy order id 1 is inserted at price 10 before
buy order id 2 at the same price; a quantity-only modify of order 1 leaves
the bid queue as [1, 2] — order 1 keeps its place AHEAD of order 2, whereas
the claim requires it to be reinserted behind every earlier arrival,
i.e. the queue to become [2, 1]. -/
theorem C4_counterexample :
    Except.map (fun ob : Orderbook => ob.bids.map Order.orderID)
        ((insertSeq Orderbook.empty
            [⟨1, "SYM", 5, 10, Side.buy⟩, ⟨2, "SYM", 7, 10, Side.buy⟩]).bind
          (fun ob => ob.modify ⟨1, "SYM", 6, 10, Side.buy⟩))
      = Except.ok [1, 2]
    ∧ ([1, 2] : List Int) ≠ [2, 1] := by
  exact ⟨rfl, by decide⟩

/-- Claim C4, witness: the amended theorem applied to the concrete
quantity-only modify of the counterexample's book. -/
theorem C4_witness :
    (Orderbook.mk [⟨1, "SYM", 6, 10, Side.buy⟩, ⟨2, "SYM", 7, 10, Side.buy⟩] [] [1, 2]).bids.map
        (fun x => (x.orderID, x.price))
      = (Orderbook.mk [⟨1, "SYM", 5, 10, Side.buy⟩, ⟨2, "SYM", 7, 10, Side.buy⟩] [] [1, 2]).bids.map
        (fun x => (x.orderID, x.price))
    ∧ (Orderbook.mk [⟨1, "SYM", 6, 10, Side.buy⟩, ⟨2, "SYM", 7, 10, Side.buy⟩] [] [1, 2]).asks.map
        (fun x => (x.orderID, x.price))
      = (Orderbook.mk [⟨1, "SYM", 5, 10, Side.buy⟩, ⟨2, "SYM", 7, 10, Side.buy⟩] [] [1, 2]).asks.map
        (fun x => (x.orderID, x.price))
    ∧ (Orderbook.mk [⟨1, "SYM", 6, 10, Side.buy⟩, ⟨2, "SYM", 7, 10, Side.buy⟩] [] [1, 2]).cache
      = (Orderbook.mk [⟨1, "SYM", 5, 10, Side.buy⟩, ⟨2, "SYM", 7, 10, Side.buy⟩] [] [1, 2]).cache :=
  C4_same_price_modify_in_place
    (Orderbook.mk [⟨1, "SYM", 5, 10, Side.buy⟩, ⟨2, "SYM", 7, 10, Side.buy⟩] [] [1, 2])
    ⟨1, "SYM", 6, 10, Side.buy⟩ ⟨1, "SYM", 5, 10, Side.buy⟩
    (Orderbook.mk [⟨1, "SYM", 6, 10, Side.buy⟩, ⟨2, "SYM", 7, 10, Side.buy⟩] [] [1, 2])
    (by decide) (by decide) rfl

/-- Claim C6, amended: the two cited implementations differ.  `deleteOrder`
of src/matching_engine/matching_engine.cpp treats an unknown id as a benign
no-op, leaving the order map unchanged; `Orderbook::cancel` of
src/orderbook_map.cpp instead RAISES a runtime error ("Order not present in
the order book.") for an unknown or already-cancelled id — the book is left
unchanged (the throw precedes any mutation) but the outcome is an
exception, not a benign "not found" return. -/
theorem C6_unknown_cancel_behaviour (mp : List Int) (i : Int) (hmp : i ∉ mp)
    (ob : Orderbook) (o : Order) (hco : o.orderID ∉ ob.cache) :
    ME.deleteOrder mp i = mp
    ∧ ob.cancel o = Except.error "Order not present in the order book." := by
  constructor
  · unfold ME.deleteOrder
    rw [if_neg hmp]
  · unfold Orderbook.cancel
    rw [if_neg hco]

/-- Claim C6, counterexample: cancelling id 7 on an empty `Orderbook` does
not return a benign "not found" result — it raises (models the thrown
`std::runtime_error`), so `isOk` is false. -/
theorem C6_counterexample :
    Orderbook.empty.cancel ⟨7, "SYM", 5, 10, Side.buy⟩
      = Except.error "Order not present in the order book."
    ∧ (Orderbook.empty.cancel ⟨7, "SYM", 5, 10, Side.buy⟩).isOk = false :=
  ⟨rfl, rfl⟩

/-- Claim C6, witness: the amended theorem at an empty order map and an
empty book. -/
theorem C6_witness :
    ME.deleteOrder [] 7 = []
    ∧ Orderbook.empty.cancel ⟨7, "SYM", 5, 10, Side.buy⟩
      = Except.error "Order not present in the order book." :=
  C6_unknown_cancel_behaviour [] 7 (by decide) Orderbook.empty
    ⟨7, "SYM", 5, 10, Side.buy⟩ (by decide)

/-- Claim C8, amended: a NEW order whose id is already active is rejected
before any mutation — the duplicate is not inserted and the book is left
untouched — but the rejection is signalled by THROWING
`std::runtime_error("Order is already present.")`, a fatal error if
uncaught, not by a warning-and-continue result. -/
theorem C8_duplicate_insert_error (ob : Orderbook) (o : Order)
    (h : o.orderID ∈ ob.cache) :
    ob.insert o = Except.error "Order is already present." := by
  unfold Orderbook.insert
  rw [if_pos h]

/-- Claim C8, counterexample: inserting the same order twice makes the
second insert raise (modelling the thrown exception) — it is not the
benign warning-and-ignore outcome the claim describes. -/
theorem C8_counterexample :
    (insertSeq Orderbook.empty [⟨1, "SYM", 5, 10, Side.buy⟩]).bind
        (fun ob => ob.insert ⟨1, "SYM", 5, 10, Side.buy⟩)
      = Except.error "Order is already present."
    ∧ ((insertSeq Orderbook.empty [⟨1, "SYM", 5, 10, Side.buy⟩]).bind
        (fun ob => ob.insert ⟨1, "SYM", 5, 10, Side.buy⟩)).isOk = false :=
  ⟨rfl, rfl⟩

/-- Claim C8, witness: the amended theorem at a concrete book already
holding id 1. -/
theorem C8_witness :
    Orderbook.insert ⟨[⟨1, "SYM", 5, 10, Side.buy⟩], [], [1]⟩ ⟨1, "SYM", 5, 10, Side.buy⟩
      = Except.error "Order is already present." :=
  C8_duplicate_insert_error ⟨[⟨1, "SYM", 5, 10, Side.buy⟩], [], [1]⟩
    ⟨1, "SYM", 5, 10, Side.buy⟩ (by decide)

end OBMap

/-! ### Helper lemmas for the registry, and claims C9 and C10 -/

namespace Reg

theorem findBySym_some_mem :
    ∀ (m : List (String × TOrderBook)) (s : String) (b : TOrderBook),
      OrderBooks.findBySym m s = some b → (s, b) ∈ m := by
  intro m
  induction m with
  | nil =>
    intro s b h
    simp [OrderBooks.findBySym] at h
  | cons p rest ih =>
    intro s b h
    obtain ⟨k, v⟩ := p
    by_cases hk : k = s
    · subst hk
      simp only [OrderBooks.findBySym, if_true] at h
      injection h with h
      subst h
      exact List.mem_cons_self _ _
    · simp only [OrderBooks.findBySym, if_neg hk] at h
      exact List.mem_cons_of_mem _ (ih s b h)

theorem findBySym_none_iff :
    ∀ (m : List (String × TOrderBook)) (s : String),
      OrderBooks.findBySym m s = none ↔ s ∉ m.map Prod.fst := by
  intro m
  induction m with
  | nil =>
    intro s
    simp [OrderBooks.findBySym]
  | cons p rest ih =>
    intro s
    obtain ⟨k, v⟩ := p
    by_cases hk : k = s
    · subst hk
      simp [OrderBooks.findBySym]
    · have hk' : ¬ s = k := fun h => hk h.symm
      simp only [OrderBooks.findBySym, if_neg hk, List.map_cons, List.mem_cons, ih s]
      tauto

theorem findBySym_append_of_none
    (m l : List (String × TOrderBook)) (s : String)
    (h : OrderBooks.findBySym m s = none) :
    OrderBooks.findBySym (m ++ l) s = OrderBooks.findBySym l s := by
  induction m with
  | nil => rfl
  | cons p rest ih =>
    obtain ⟨k, v⟩ := p
    by_cases hk : k = s
    · simp only [OrderBooks.findBySym, if_pos hk] at h
      exact absurd h (by simp)
    · simp only [OrderBooks.findBySym, if_neg hk] at h ⊢
      exact ih h

theorem getOrAdd_symbol (m : List (String × TOrderBook)) (s : String)
    (hwf : SymKeyed m) : (OrderBooks.getOrAdd m s).2.symbol = s := by
  unfold OrderBooks.getOrAdd OrderBooks.getOrAddBook
  cases h : OrderBooks.findBySym m (mkOrderBook s).symbol with
  | none => rfl
  | some b =>
    have hb : ((mkOrderBook s).symbol, b) ∈ m := findBySym_some_mem m _ b h
    exact hwf _ hb

theorem getOrAdd_symKeyed (m : List (String × TOrderBook)) (s : String)
    (hwf : SymKeyed m) : SymKeyed (OrderBooks.getOrAdd m s).1 := by
  unfold OrderBooks.getOrAdd OrderBooks.getOrAddBook
  cases h : OrderBooks.findBySym m (mkOrderBook s).symbol with
  | none =>
    intro p hp
    rcases List.mem_append.mp hp with hm | hsing
    · exact hwf p hm
    · simp only [List.mem_singleton] at hsing
      subst hsing
      rfl
  | some b =>
    exact hwf

theorem getOrAdd_get_self (m : List (String × TOrderBook)) (s : String) :
    OrderBooks.get (OrderBooks.getOrAdd m s).1 s = some (OrderBooks.getOrAdd m s).2 := by
  unfold OrderBooks.get OrderBooks.getOrAdd OrderBooks.getOrAddBook
  cases h : OrderBooks.findBySym m (mkOrderBook s).symbol with
  | none =>
    have hs : OrderBooks.findBySym m s = none := h
    rw [findBySym_append_of_none m _ s hs]
    simp [OrderBooks.findBySym, mkOrderBook]
  | some b =>
    exact h

/-- Claim C9: the registry hands out one order book per distinct symbol.
With `SymKeyed m` (each stored book carries its key as its `symbol` — the
invariant `try_emplace(orderBook.symbol, …)` maintains): `get` returns
`none` exactly when no book for the symbol exists (and, being const, it
creates nothing); a `getOrAdd` on an absent symbol appends exactly one
freshly constructed book for it and returns that book; after any
`getOrAdd`, `get` finds precisely the returned book, and a second
`getOrAdd` with the same symbol returns the very same book without
touching the registry; the returned book carries the requested symbol, so
two `getOrAdd`s with distinct symbols return distinct books. -/
theorem C9_registry (m : List (String × TOrderBook)) (s s2 : String)
    (hwf : SymKeyed m) (hne : s ≠ s2) :
    (OrderBooks.get m s = none ↔ s ∉ m.map Prod.fst)
    ∧ (OrderBooks.get m s = none →
        OrderBooks.getOrAdd m s = (m ++ [(s, mkOrderBook s)], mkOrderBook s))
    ∧ OrderBooks.get (OrderBooks.getOrAdd m s).1 s = some (OrderBooks.getOrAdd m s).2
    ∧ OrderBooks.getOrAdd (OrderBooks.getOrAdd m s).1 s
        = ((OrderBooks.getOrAdd m s).1, (OrderBooks.getOrAdd m s).2)
    ∧ SymKeyed (OrderBooks.getOrAdd m s).1
    ∧ (OrderBooks.getOrAdd m s).2.symbol = s
    ∧ (OrderBooks.getOrAdd m s).2
        ≠ (OrderBooks.getOrAdd (OrderBooks.getOrAdd m s).1 s2).2 := by
  refine ⟨findBySym_none_iff m s, ?_, getOrAdd_get_self m s, ?_, getOrAdd_symKeyed m s hwf,
    getOrAdd_symbol m s hwf, ?_⟩
  · intro h
    have hs : OrderBooks.findBySym m (mkOrderBook s).symbol = none := h
    unfold OrderBooks.getOrAdd OrderBooks.getOrAddBook
    simp only [hs]
    rfl
  · have hself := getOrAdd_get_self m s
    set M := OrderBooks.getOrAdd m s with hM
    have hs : OrderBooks.findBySym M.1 (mkOrderBook s).symbol = some M.2 := hself
    unfold OrderBooks.getOrAdd OrderBooks.getOrAddBook
    simp only [hs]
  · intro heq
    have h1 : (OrderBooks.getOrAdd m s).2.symbol = s := getOrAdd_symbol m s hwf
    have h2 : (OrderBooks.getOrAdd (OrderBooks.getOrAdd m s).1 s2).2.symbol = s2 :=
      getOrAdd_symbol _ s2 (getOrAdd_symKeyed m s hwf)
    rw [heq, h2] at h1
    exact hne h1.symm

/-- Claim C9, witness: the registry facts at the empty registry with the
distinct symbols "AAPL" and "MSFT". -/
theorem C9_witness :
    (OrderBooks.get ([] : List (String × TOrderBook)) "AAPL" = none
      ↔ "AAPL" ∉ ([] : List (String × TOrderBook)).map Prod.fst)
    ∧ (OrderBooks.get ([] : List (String × TOrderBook)) "AAPL" = none →
        OrderBooks.getOrAdd ([] : List (String × TOrderBook)) "AAPL"
          = ([] ++ [("AAPL", mkOrderBook "AAPL")], mkOrderBook "AAPL"))
    ∧ OrderBooks.get (OrderBooks.getOrAdd ([] : List (String × TOrderBook)) "AAPL").1 "AAPL"
        = some (OrderBooks.getOrAdd ([] : List (String × TOrderBook)) "AAPL").2
    ∧ OrderBooks.getOrAdd (OrderBooks.getOrAdd ([] : List (String × TOrderBook)) "AAPL").1 "AAPL"
        = ((OrderBooks.getOrAdd ([] : List (String × TOrderBook)) "AAPL").1,
           (OrderBooks.getOrAdd ([] : List (String × TOrderBook)) "AAPL").2)
    ∧ SymKeyed (OrderBooks.getOrAdd ([] : List (String × TOrderBook)) "AAPL").1
    ∧ (OrderBooks.getOrAdd ([] : List (String × TOrderBook)) "AAPL").2.symbol = "AAPL"
    ∧ (OrderBooks.getOrAdd ([] : List (String × TOrderBook)) "AAPL").2
        ≠ (OrderBooks.getOrAdd
            (OrderBooks.getOrAdd ([] : List (String × TOrderBook)) "AAPL").1 "MSFT").2 :=
  C9_registry [] "AAPL" "MSFT" (by decide) (by decide)

/-- Claim C10 is violated by the code: both lookup helpers return
`iter.base()` of the reverse iterator that found the match, which is the
position ONE PAST the matching element.  On a single-element vector holding
exactly the price level with price 10, `PriceLevels::find(10)` returns
(true, index 1) — the `end()` position, which references no element at all
(its dereference in the caller `PriceLevels::add` is undefined behaviour);
likewise `PriceLevel::findOrder` on a single-order level returns (true,
index 1 = end()). -/
theorem C10_find_off_by_one :
    PriceLevels.find [⟨10, []⟩] 10 = (true, 1)
    ∧ ([(⟨10, []⟩ : TPriceLevel)][1]?) = none
    ∧ PriceLevel.findOrder [⟨"A", 10, 5, OrderType.GFD, Side.buy, "SYM"⟩]
        ⟨"A", 10, 5, OrderType.GFD, Side.buy, "SYM"⟩ = (true, 1)
    ∧ ([(⟨"A", 10, 5, OrderType.GFD, Side.buy, "SYM"⟩ : TOrder)][1]?) = none :=
  ⟨rfl, rfl, rfl, rfl⟩

end Reg

/-! ### Claim C5 (spec-modelled submission path) -/

namespace SpecModel

theorem matchLoopS_index_sub (side : Side) (aggrId : String) (p : Int) :
    ∀ (fuel q : Nat) (opp : List SOrder) (idx : List String) (x : String),
      x ∈ (matchLoopS side aggrId p fuel q opp idx).2.2.1 → x ∈ idx := by
  intro fuel
  induction fuel with
  | zero =>
    intro q opp idx x h
    exact h
  | succ fuel ih =>
    intro q opp idx x h
    cases opp with
    | nil => exact h
    | cons r rest =>
      by_cases hq : q = 0
      · simp only [matchLoopS, if_pos hq] at h
        exact h
      · by_cases hcr : crosses side p r.price = true
        · simp only [matchLoopS, if_neg hq, if_pos hcr] at h
          by_cases hz : r.qty - min q r.qty = 0
          · simp only [if_pos hz] at h
            exact List.mem_of_mem_erase (ih _ _ _ x h)
          · simp only [if_neg hz] at h
            exact ih _ _ _ x h
        · simp only [matchLoopS, if_neg hq, if_neg hcr] at h
          exact h

/-- Claim C5 (spec-modelled: no file under src/ implements the submission
path; `submit` is modelled from spec §4.2): after a submitted IOC order is
fully processed, no resting acknowledgement is emitted for it, the
OrderIndex contains no entry for its id (given that, as for any admitted
NEW order, its id was not already indexed), and its own side of the book is
untouched — the unfilled remainder rests nowhere. -/
theorem C5_ioc_never_rests (b : SpecBook) (o : SOrder)
    (ht : o.type = OrderType.IOC) (hi : o.id ∉ b.index) :
    (submit b o).2.2 = none
    ∧ o.id ∉ (submit b o).1.index
    ∧ (o.side = Side.buy → (submit b o).1.bids = b.bids)
    ∧ (o.side = Side.sell → (submit b o).1.asks = b.asks) := by
  cases hside : o.side with
  | buy =>
    have hsub : submit b o
        = ({ bids := b.bids,
             asks := (matchLoopS Side.buy o.id o.price (b.asks.length + 1) o.qty b.asks b.index).2.1,
             index := (matchLoopS Side.buy o.id o.price (b.asks.length + 1) o.qty b.asks b.index).2.2.1 },
           (matchLoopS Side.buy o.id o.price (b.asks.length + 1) o.qty b.asks b.index).2.2.2,
           none) := by
      simp only [submit, hside, ht]
      by_cases h0 : 0 < (matchLoopS Side.buy o.id o.price (b.asks.length + 1) o.qty b.asks b.index).1
      · simp [h0]
      · simp [h0]
    rw [hsub]
    exact ⟨rfl,
      fun hmem => hi (matchLoopS_index_sub Side.buy o.id o.price _ _ _ _ _ hmem),
      fun _ => rfl,
      fun hc => absurd hc (by decide)⟩
  | sell =>
    have hsub : submit b o
        = ({ bids := (matchLoopS Side.sell o.id o.price (b.bids.length + 1) o.qty b.bids b.index).2.1,
             asks := b.asks,
             index := (matchLoopS Side.sell o.id o.price (b.bids.length + 1) o.qty b.bids b.index).2.2.1 },
           (matchLoopS Side.sell o.id o.price (b.bids.length + 1) o.qty b.bids b.index).2.2.2,
           none) := by
      simp only [submit, hside, ht]
      by_cases h0 : 0 < (matchLoopS Side.sell o.id o.price (b.bids.length + 1) o.qty b.bids b.index).1
      · simp [h0]
      · simp [h0]
    rw [hsub]
    exact ⟨rfl,
      fun hmem => hi (matchLoopS_index_sub Side.sell o.id o.price _ _ _ _ _ hmem),
      fun hc => absurd hc (by decide),
      fun _ => rfl⟩

/-- Claim C5, witness: the spec §8 scenario — `BUY 10 x50 id=B1 IOC` into
an empty book: no resting ack, no OrderIndex entry for B1, book unchanged. -/
theorem C5_witness :
    (submit ⟨[], [], []⟩ ⟨"B1", Side.buy, 10, 50, OrderType.IOC⟩).2.2 = none
    ∧ "B1" ∉ (submit ⟨[], [], []⟩ ⟨"B1", Side.buy, 10, 50, OrderType.IOC⟩).1.index
    ∧ ((⟨"B1", Side.buy, 10, 50, OrderType.IOC⟩ : SOrder).side = Side.buy →
        (submit ⟨[], [], []⟩ ⟨"B1", Side.buy, 10, 50, OrderType.IOC⟩).1.bids = [])
    ∧ ((⟨"B1", Side.buy, 10, 50, OrderType.IOC⟩ : SOrder).side = Side.sell →
        (submit ⟨[], [], []⟩ ⟨"B1", Side.buy, 10, 50, OrderType.IOC⟩).1.asks = []) :=
  C5_ioc_never_rests ⟨[], [], []⟩ ⟨"B1", Side.buy, 10, 50, OrderType.IOC⟩ rfl
    (by decide)

end SpecModel
